import Mathlib

/-!
Verification of the text-to-speech app core logic (`src/app.py`).

The Python source is shallowly embedded as Lean definitions:
Python strings become `String`, Python ints become `ℤ`, Python floats
(used only for exactly-representable slider fractions and exact rational
arithmetic whose results are far from rounding ties) become `ℚ`, and the
Streamlit session state / try-finally control flow of the generate handler
becomes explicit state passing with `Except`-valued results.
-/

/- ## String helpers

Python string primitives used by `app.py`, modelled over `List Char`
(so that everything reduces in the kernel).  Python's `str.lower`,
`str.strip`, slicing and `in` agree with these models on the ASCII data
the program manipulates. -/

/-- Model of Python `s.lower()` (ASCII case folding). -/
def lowerStr (s : String) : String :=
  String.mk (s.toList.map Char.toLower)

/-- Model of Python `s.endswith(suffix)`. -/
def endsWithStr (s suffix : String) : Bool :=
  suffix.toList.isSuffixOf s.toList

/-- Model of Python slicing `s[:-n]` (drop the last `n` characters;
all of `s` is dropped when `s` has fewer than `n` characters). -/
def dropRightStr (s : String) (n : Nat) : String :=
  String.mk (s.toList.take (s.toList.length - n))

/-- Model of Python `c in s` for a single character `c`. -/
def containsChar (s : String) (c : Char) : Bool :=
  s.toList.contains c

/-- Helper for `lastSegment`: scan the characters, restarting the
accumulator after each separator; the final accumulator is the trailing
segment. -/
def lastSegAux (sep : Char) (cs : List Char) (cur : List Char) : List Char :=
  match cs with
  | [] => cur
  | c :: rest => if c = sep then lastSegAux sep rest [] else lastSegAux sep rest (cur ++ [c])

/-- Model of Python `sn.split("-")[-1]`: the trailing segment of `sn`
after the last `'-'` (the whole string when no `'-'` occurs). -/
def lastSegment (sn : String) : String :=
  String.mk (lastSegAux '-' sn.toList [])

/-- Is `needle` a contiguous sublist of `hay`? -/
def listContainsSub (needle : List Char) : List Char → Bool
  | [] => needle.isEmpty
  | c :: rest => needle.isPrefixOf (c :: rest) || listContainsSub needle rest

/-- Model of Python `needle in hay` for strings (substring test). -/
def containsStr (hay needle : String) : Bool :=
  listContainsSub needle.toList hay.toList

/-- Model of Python `s.strip()`: remove leading and trailing whitespace. -/
def stripStr (s : String) : String :=
  String.mk (((s.toList.dropWhile Char.isWhitespace).reverse.dropWhile Char.isWhitespace).reverse)

/- ## Rounding and percent formatting -/

/-- Floor of a rational, written through `num`/`den` so that it is
definitionally `Rat.floor_def`-shaped. -/
def ratFloorZ (q : ℚ) : ℤ := q.num / q.den

theorem ratFloorZ_eq (q : ℚ) : ratFloorZ q = ⌊q⌋ := Rat.floor_def.symm

/-- Model of Python's built-in `round` on exact values: round to the
nearest integer, ties going to the even integer (banker's rounding, the
semantics of Python 3 `round`). -/
def pyRound (q : ℚ) : ℤ :=
  if q - (ratFloorZ q : ℚ) < 1/2 then ratFloorZ q
  else if 1/2 < q - (ratFloorZ q : ℚ) then ratFloorZ q + 1
  else if ratFloorZ q % 2 = 0 then ratFloorZ q else ratFloorZ q + 1

theorem pyRound_intCast (n : ℤ) : pyRound ((n : ℚ)) = n := by
  have h : ratFloorZ ((n : ℚ)) = n := by rw [ratFloorZ_eq, Int.floor_intCast]
  rw [pyRound, h]
  norm_num

theorem le_pyRound_of_le {q : ℚ} {n : ℤ} (h : (n : ℚ) ≤ q) : n ≤ pyRound q := by
  have hf : n ≤ ratFloorZ q := by
    rw [ratFloorZ_eq]
    exact Int.le_floor.mpr h
  unfold pyRound
  split
  · exact hf
  · split
    · omega
    · split
      · exact hf
      · omega

theorem pyRound_le_of_le {q : ℚ} {n : ℤ} (h : q ≤ (n : ℚ)) : pyRound q ≤ n := by
  have hf : ratFloorZ q ≤ n := by
    rw [ratFloorZ_eq]
    have h2 := Int.floor_mono h
    rwa [Int.floor_intCast] at h2
  unfold pyRound
  split
  · exact hf
  · rename_i h1
    push_neg at h1
    have hlt : ratFloorZ q < n := by
      have hfq : (ratFloorZ q : ℚ) ≤ q := by rw [ratFloorZ_eq]; exact Int.floor_le q
      have h3 : (ratFloorZ q : ℚ) < (n : ℚ) := by linarith
      exact_mod_cast h3
    split
    · omega
    · split
      · exact hf
      · omega

/-- Model of the Python format string `f"{val:+d}%"`: a decimal integer
with an explicit sign, followed by `%`. -/
def signedPct (val : ℤ) : String :=
  (if val < 0 then "-" ++ toString val.natAbs else "+" ++ toString val.natAbs) ++ "%"

/- ## Parameter mappers (`app.py` lines 90-100) -/

/-- Embedding of `pct_to_edge_rate` (`app.py` 90-94):
`val = int(round(((pct - 175) / 75) * 50)); val = max(-50, min(50, val));
return f"{val:+d}%"`. -/
def pct_to_edge_rate (pct : ℤ) : String :=
  signedPct (max (-50) (min 50 (pyRound (((pct : ℚ) - 175) / 75 * 50))))

/-- Embedding of `volume_to_edge` (`app.py` 96-100):
`val = int(round((vol - 1.0) * 50)); val = max(-50, min(0, val));
return f"{val:+d}%"`. -/
def volume_to_edge (vol : ℚ) : String :=
  signedPct (max (-50) (min 0 (pyRound ((vol - 1) * 50))))

/-- claim C1: for every integer slider value in [100,250] the rate mapper
returns the signed-percentage string of round(((pct-175)/75)*50) clamped to
[-50,50]; the rounded value already lies in [-50,50] (so the clamp is the
identity there), and 175 ↦ "+0%", 100 ↦ "-50%", 250 ↦ "+50%". -/
theorem pct_to_edge_rate_spec :
    (∀ pct : ℤ, 100 ≤ pct → pct ≤ 250 →
      -50 ≤ pyRound (((pct : ℚ) - 175) / 75 * 50) ∧
      pyRound (((pct : ℚ) - 175) / 75 * 50) ≤ 50 ∧
      pct_to_edge_rate pct = signedPct (pyRound (((pct : ℚ) - 175) / 75 * 50))) ∧
    pct_to_edge_rate 175 = "+0%" ∧
    pct_to_edge_rate 100 = "-50%" ∧
    pct_to_edge_rate 250 = "+50%" := by
  refine ⟨?_, ?_, ?_, ?_⟩
  · intro pct h1 h2
    have hc1 : (100 : ℚ) ≤ (pct : ℚ) := by exact_mod_cast h1
    have hc2 : (pct : ℚ) ≤ 250 := by exact_mod_cast h2
    have hlo : ((-50 : ℤ) : ℚ) ≤ ((pct : ℚ) - 175) / 75 * 50 := by
      rw [div_mul_eq_mul_div, le_div_iff₀ (by norm_num : (0:ℚ) < 75)]
      push_cast
      linarith
    have hhi : ((pct : ℚ) - 175) / 75 * 50 ≤ ((50 : ℤ) : ℚ) := by
      rw [div_mul_eq_mul_div, div_le_iff₀ (by norm_num : (0:ℚ) < 75)]
      push_cast
      linarith
    have hr1 := le_pyRound_of_le hlo
    have hr2 := pyRound_le_of_le hhi
    refine ⟨hr1, hr2, ?_⟩
    rw [pct_to_edge_rate, min_eq_right hr2, max_eq_right hr1]
  · have h : (((175 : ℤ) : ℚ) - 175) / 75 * 50 = ((0 : ℤ) : ℚ) := by norm_num
    rw [pct_to_edge_rate, h, pyRound_intCast]
    decide
  · have h : (((100 : ℤ) : ℚ) - 175) / 75 * 50 = ((-50 : ℤ) : ℚ) := by norm_num
    rw [pct_to_edge_rate, h, pyRound_intCast]
    decide
  · have h : (((250 : ℤ) : ℚ) - 175) / 75 * 50 = ((50 : ℤ) : ℚ) := by norm_num
    rw [pct_to_edge_rate, h, pyRound_intCast]
    decide

/-- Witness for C1: the bounded statement instantiated at slider value 180. -/
theorem pct_to_edge_rate_spec_witness :
    -50 ≤ pyRound ((((180 : ℤ) : ℚ) - 175) / 75 * 50) ∧
    pyRound ((((180 : ℤ) : ℚ) - 175) / 75 * 50) ≤ 50 ∧
    pct_to_edge_rate 180 = signedPct (pyRound ((((180 : ℤ) : ℚ) - 175) / 75 * 50)) :=
  pct_to_edge_rate_spec.1 180 (by norm_num) (by norm_num)

/-- claim C2: for every volume fraction in [0,1] the volume mapper returns
the signed-percentage string of round((vol-1)*50) clamped to [-50,0]; the
rounded value already lies in [-50,0], and 1 ↦ "+0%", 0 ↦ "-50%". -/
theorem volume_to_edge_spec :
    (∀ vol : ℚ, 0 ≤ vol → vol ≤ 1 →
      -50 ≤ pyRound ((vol - 1) * 50) ∧
      pyRound ((vol - 1) * 50) ≤ 0 ∧
      volume_to_edge vol = signedPct (pyRound ((vol - 1) * 50))) ∧
    volume_to_edge 1 = "+0%" ∧
    volume_to_edge 0 = "-50%" := by
  refine ⟨?_, ?_, ?_⟩
  · intro vol h1 h2
    have hlo : ((-50 : ℤ) : ℚ) ≤ (vol - 1) * 50 := by push_cast; linarith
    have hhi : (vol - 1) * 50 ≤ ((0 : ℤ) : ℚ) := by push_cast; linarith
    have hr1 := le_pyRound_of_le hlo
    have hr2 := pyRound_le_of_le hhi
    refine ⟨hr1, hr2, ?_⟩
    rw [volume_to_edge, min_eq_right hr2, max_eq_right hr1]
  · have h : ((1 : ℚ) - 1) * 50 = ((0 : ℤ) : ℚ) := by norm_num
    rw [volume_to_edge, h, pyRound_intCast]
    decide
  · have h : ((0 : ℚ) - 1) * 50 = ((-50 : ℤ) : ℚ) := by norm_num
    rw [volume_to_edge, h, pyRound_intCast]
    decide

/-- Witness for C2: the bounded statement instantiated at volume 1/2. -/
theorem volume_to_edge_spec_witness :
    -50 ≤ pyRound (((1/2 : ℚ) - 1) * 50) ∧
    pyRound (((1/2 : ℚ) - 1) * 50) ≤ 0 ∧
    volume_to_edge (1/2) = signedPct (pyRound (((1/2 : ℚ) - 1) * 50)) :=
  volume_to_edge_spec.1 (1/2) (by norm_num) (by norm_num)

/- ## Voice catalog (`app.py` lines 107-123)

The voice catalog entries are dictionaries coming from the service; the
program reads the keys `"ShortName"`, `"Locale"` and `"Gender"` (with `""`
defaults), so a catalog entry is modelled as a record of those three
string fields. -/

structure Voice where
  shortName : String
  locale : String
  gender : String
deriving DecidableEq, Repr

/-- Keep-condition of the primary loop of `filter_voice_list`
(`app.py` 109-116): the entry survives both `continue`s, i.e. it matches
the preferred locale (when one is given) and, when a female voice is
preferred, has gender `"female"` after lowercasing.  Python's falsy
`prefer_lang` (`None`) is an `Option`. -/
def primaryKeep (prefer_lang : Option String) (prefer_female : Bool) (v : Voice) : Bool :=
  (match prefer_lang with
   | some l => v.locale == l
   | none => true) &&
  (if prefer_female then lowerStr v.gender == "female" else true)

/-- Model of the Python idiom `if not out: out = fallback`. -/
def orIfEmpty {α : Type} (out fallback : List α) : List α :=
  if out.isEmpty then fallback else out

theorem orIfEmpty_ne_nil {α : Type} (out fb : List α) (h : fb ≠ []) :
    orIfEmpty out fb ≠ [] := by
  rw [orIfEmpty]
  split
  · exact h
  · rename_i h2
    intro hc
    rw [hc] at h2
    exact h2 rfl

theorem orIfEmpty_of_ne_nil {α : Type} (out fb : List α) (h : out ≠ []) :
    orIfEmpty out fb = out := by
  rw [orIfEmpty, if_neg]
  rw [List.isEmpty_iff]
  exact h

/-- Embedding of `filter_voice_list` (`app.py` 107-123): primary filtered
pass, then a locale-only fallback when that is empty, then the whole
catalog when still empty. -/
def filter_voice_list (voices : List Voice) (prefer_lang : Option String)
    (prefer_female : Bool) : List Voice :=
  orIfEmpty
    (orIfEmpty (voices.filter (primaryKeep prefer_lang prefer_female))
      (match prefer_lang with
       | some l => voices.filter (fun v => v.locale == l)
       | none => voices))
    voices

/-- claim C3: on a non-empty catalog, `filter_voice_list` never returns the
empty list, for every locale preference (including none) and gender
preference. -/
theorem filter_voice_list_ne_nil (voices : List Voice) (prefer_lang : Option String)
    (prefer_female : Bool) (h : voices ≠ []) :
    filter_voice_list voices prefer_lang prefer_female ≠ [] := by
  rw [filter_voice_list.eq_def]
  exact orIfEmpty_ne_nil _ _ h

/-- Witness for C3: a singleton catalog with a preference no entry matches. -/
theorem filter_voice_list_ne_nil_witness :
    filter_voice_list [⟨"a-B", "a", "Male"⟩] (some "zz") true ≠ [] :=
  filter_voice_list_ne_nil [⟨"a-B", "a", "Male"⟩] (some "zz") true (by decide)

/-- claim C4: when the catalog has at least one en-US entry whose gender
lowercases to "female", `filter_voice_list` with preferences en-US/female
returns exactly the sublist of such entries, in catalog order. -/
theorem filter_voice_list_enUS_female (voices : List Voice)
    (h : ∃ v ∈ voices, v.locale = "en-US" ∧ lowerStr v.gender = "female") :
    filter_voice_list voices (some "en-US") true =
      voices.filter (fun v => v.locale == "en-US" && lowerStr v.gender == "female") := by
  obtain ⟨v, hv, hl, hg⟩ := h
  have hpred : primaryKeep (some "en-US") true =
      fun v => v.locale == "en-US" && lowerStr v.gender == "female" := by
    funext w
    simp [primaryKeep]
  have hkeep : primaryKeep (some "en-US") true v = true := by
    simp [primaryKeep, hl, hg]
  have hne : voices.filter (primaryKeep (some "en-US") true) ≠ [] := by
    intro hc
    have hmem : v ∈ voices.filter (primaryKeep (some "en-US") true) :=
      List.mem_filter.mpr ⟨hv, hkeep⟩
    rw [hc] at hmem
    cases hmem
  rw [filter_voice_list, orIfEmpty_of_ne_nil _ _ hne,
    orIfEmpty_of_ne_nil _ _ hne, hpred]

/-- Witness for C4: a two-entry catalog where only the second entry is an
en-US female voice. -/
theorem filter_voice_list_enUS_female_witness :
    filter_voice_list
      [⟨"en-US-GuyNeural", "en-US", "Male"⟩, ⟨"en-US-JennyNeural", "en-US", "Female"⟩]
      (some "en-US") true =
    List.filter (fun v => v.locale == "en-US" && lowerStr v.gender == "female")
      [⟨"en-US-GuyNeural", "en-US", "Male"⟩, ⟨"en-US-JennyNeural", "en-US", "Female"⟩] :=
  filter_voice_list_enUS_female
    [⟨"en-US-GuyNeural", "en-US", "Male"⟩, ⟨"en-US-JennyNeural", "en-US", "Female"⟩]
    (by decide)

/-- claim C10: with no locale preference and no gender preference the
filter is the identity: it returns the input catalog unchanged. -/
theorem filter_voice_list_id (voices : List Voice) :
    filter_voice_list voices none false = voices := by
  have hpred : primaryKeep none false = fun _ => true := by
    funext w
    simp [primaryKeep]
  rw [filter_voice_list, hpred, List.filter_true]
  simp [orIfEmpty]

/- ## Voice labels (`app.py` lines 153-163) -/

/-- Embedding of `name_part = sn.split("-")[-1] if "-" in sn else sn`
(`app.py` 157). -/
def niceNamePart (sn : String) : String :=
  if containsChar sn '-' then lastSegment sn else sn

/-- Embedding of `nice_label` (`app.py` 153-163).  Note that the source
tests `name_part.lower().endswith("neural")` — a case-insensitive check —
and then strips the last six characters. -/
def nice_label (v : Voice) : String :=
  (if endsWithStr (lowerStr (niceNamePart v.shortName)) "neural"
   then dropRightStr (niceNamePart v.shortName) 6 ++ " (Neural)"
   else niceNamePart v.shortName) ++ " — " ++ v.locale ++ " — " ++ v.gender

/-- The label producer as the spec describes it: identical to `nice_label`
except that the trailing segment is compared against the literal suffix
"Neural" case-sensitively. -/
def labelFor_claim (v : Voice) : String :=
  (if endsWithStr (niceNamePart v.shortName) "Neural"
   then dropRightStr (niceNamePart v.shortName) 6 ++ " (Neural)"
   else niceNamePart v.shortName) ++ " — " ++ v.locale ++ " — " ++ v.gender

/-- The label producer as amended: the suffix check is case-insensitive
(the lowercased trailing segment is tested against "neural"), and on a
match the last six characters are stripped and " (Neural)" appended. -/
def labelFor_amended (v : Voice) : String :=
  (if endsWithStr (lowerStr (niceNamePart v.shortName)) "neural"
   then dropRightStr (niceNamePart v.shortName) 6 ++ " (Neural)"
   else niceNamePart v.shortName) ++ " — " ++ v.locale ++ " — " ++ v.gender

/-- Counterexample to claim C5 as stated: on the short name
"en-US-Fooneural" the code's case-insensitive suffix check fires and
rewrites the display name, while the claimed case-sensitive rule would
leave the segment untouched. -/
theorem nice_label_case_counterexample :
    nice_label ⟨"en-US-Fooneural", "en-US", "Female"⟩ = "Foo (Neural) — en-US — Female" ∧
    labelFor_claim ⟨"en-US-Fooneural", "en-US", "Female"⟩ = "Fooneural — en-US — Female" ∧
    nice_label ⟨"en-US-Fooneural", "en-US", "Female"⟩ ≠
      labelFor_claim ⟨"en-US-Fooneural", "en-US", "Female"⟩ := by
  refine ⟨by decide, by decide, by decide⟩

/-- claim C5 (amended): `nice_label` produces
"{displayName} — {locale} — {gender}" with the display name derived from
the trailing segment of the short name, stripping a case-insensitive
"Neural" suffix and appending " (Neural)"; as an instance,
"en-US-JennyNeural"/"en-US"/"Female" yields
"Jenny (Neural) — en-US — Female". -/
theorem nice_label_spec :
    (∀ v : Voice, nice_label v = labelFor_amended v) ∧
    nice_label ⟨"en-US-JennyNeural", "en-US", "Female"⟩ =
      "Jenny (Neural) — en-US — Female" := by
  refine ⟨fun v => rfl, by decide⟩

/- ## Default voice selection (`app.py` lines 167-179) -/

/-- The first loop's test (`app.py` 170): `"jenny" in key.lower()`. -/
def hasJenny (k : String) : Bool := containsStr (lowerStr k) "jenny"

/-- The second loop's test (`app.py` 175): `"aria" in key.lower()`. -/
def hasAria (k : String) : Bool := containsStr (lowerStr k) "aria"

/-- Embedding of the `default_label` selection (`app.py` 167-179): first
label containing "jenny" (lowercased), else first containing "aria", else
the first label; `none` models the `IndexError` raised by
`list(voice_map.keys())[0]` on an empty mapping. -/
def default_label (keys : List String) : Option String :=
  match keys.find? hasJenny with
  | some k => some k
  | none =>
    match keys.find? hasAria with
    | some k => some k
    | none => keys.head?

/-- claim C6: on a non-empty ordered key list the default selection always
yields a key of the list; it is the first key containing "jenny"
(lowercased) when one exists, else the first containing "aria", else the
first key of the list. -/
theorem default_label_spec (keys : List String) (h : keys ≠ []) :
    ∃ k, default_label keys = some k ∧ k ∈ keys ∧
      ((∃ j ∈ keys, hasJenny j = true) →
        hasJenny k = true ∧ ∃ l1 l2, keys = l1 ++ k :: l2 ∧ ∀ x ∈ l1, hasJenny x = false) ∧
      ((∀ j ∈ keys, hasJenny j = false) → (∃ j ∈ keys, hasAria j = true) →
        hasAria k = true ∧ ∃ l1 l2, keys = l1 ++ k :: l2 ∧ ∀ x ∈ l1, hasAria x = false) ∧
      ((∀ j ∈ keys, hasJenny j = false) → (∀ j ∈ keys, hasAria j = false) →
        keys.head? = some k) := by
  cases hj : keys.find? hasJenny with
  | some k =>
    have hk : hasJenny k = true := List.find?_some hj
    have hmem : k ∈ keys := List.mem_of_find?_eq_some hj
    refine ⟨k, ?_, hmem, ?_, ?_, ?_⟩
    · unfold default_label
      rw [hj]
    · intro _
      refine ⟨hk, ?_⟩
      obtain ⟨-, as, bs, hsplit, hall⟩ := List.find?_eq_some.mp hj
      exact ⟨as, bs, hsplit, fun x hx => by simpa using hall x hx⟩
    · intro hnone _
      exact absurd hk (by simp [hnone k hmem])
    · intro hnone _
      exact absurd hk (by simp [hnone k hmem])
  | none =>
    have hjall := List.find?_eq_none.mp hj
    cases ha : keys.find? hasAria with
    | some k =>
      have hk : hasAria k = true := List.find?_some ha
      have hmem : k ∈ keys := List.mem_of_find?_eq_some ha
      refine ⟨k, ?_, hmem, ?_, ?_, ?_⟩
      · unfold default_label
        rw [hj, ha]
      · rintro ⟨j, hjm, hjt⟩
        exact absurd hjt (hjall j hjm)
      · intro _ _
        refine ⟨hk, ?_⟩
        obtain ⟨-, as, bs, hsplit, hall⟩ := List.find?_eq_some.mp ha
        exact ⟨as, bs, hsplit, fun x hx => by simpa using hall x hx⟩
      · intro _ hnone
        exact absurd hk (by simp [hnone k hmem])
    | none =>
      have haall := List.find?_eq_none.mp ha
      rcases keys with _ | ⟨a, t⟩
      · exact absurd rfl h
      · refine ⟨a, ?_, List.mem_cons_self a t, ?_, ?_, ?_⟩
        · unfold default_label
          rw [hj, ha]
          rfl
        · rintro ⟨j, hjm, hjt⟩
          exact absurd hjt (hjall j hjm)
        · rintro _ ⟨j, hjm, hjt⟩
          exact absurd hjt (haall j hjm)
        · intro _ _
          rfl

/-- Witness for C6: a two-key list whose second key is the Jenny label. -/
theorem default_label_spec_witness :
    ∃ k, default_label ["Guy (Neural) — en-US — Male",
        "Jenny (Neural) — en-US — Female"] = some k ∧
      k ∈ ["Guy (Neural) — en-US — Male", "Jenny (Neural) — en-US — Female"] ∧
      ((∃ j ∈ ["Guy (Neural) — en-US — Male", "Jenny (Neural) — en-US — Female"],
          hasJenny j = true) →
        hasJenny k = true ∧ ∃ l1 l2,
          ["Guy (Neural) — en-US — Male", "Jenny (Neural) — en-US — Female"] =
            l1 ++ k :: l2 ∧ ∀ x ∈ l1, hasJenny x = false) ∧
      ((∀ j ∈ ["Guy (Neural) — en-US — Male", "Jenny (Neural) — en-US — Female"],
          hasJenny j = false) →
        (∃ j ∈ ["Guy (Neural) — en-US — Male", "Jenny (Neural) — en-US — Female"],
          hasAria j = true) →
        hasAria k = true ∧ ∃ l1 l2,
          ["Guy (Neural) — en-US — Male", "Jenny (Neural) — en-US — Female"] =
            l1 ++ k :: l2 ∧ ∀ x ∈ l1, hasAria x = false) ∧
      ((∀ j ∈ ["Guy (Neural) — en-US — Male", "Jenny (Neural) — en-US — Female"],
          hasJenny j = false) →
        (∀ j ∈ ["Guy (Neural) — en-US — Male", "Jenny (Neural) — en-US — Female"],
          hasAria j = false) →
        ["Guy (Neural) — en-US — Male", "Jenny (Neural) — en-US — Female"].head? =
          some k) :=
  default_label_spec
    ["Guy (Neural) — en-US — Male", "Jenny (Neural) — en-US — Female"] (by decide)

/- ## Generate handler (`app.py` lines 203-247)

The handler body is straight-line Streamlit code.  `st.session_state.busy`
becomes a record field, `st.stop()` and exceptions escaping the `try`
block both become `Except.error` results (either way control leaves the
block and, when the `try` has been entered, passes through the `finally`),
and the outcome of the awaited synthesis call is a parameter: either the
resulting audio byte count or a transport failure. -/

/-- Outcome of the external synthesis call (`run_async(synthesize_edge_tts ...)`
followed by `out_path.read_bytes()`): the byte count of the produced file,
or a network/service failure raised during the call. -/
inductive SynthOutcome where
  | ok (audioLen : Nat)
  | transportError
deriving DecidableEq, Repr

/-- The error taxonomy of the generate action: the empty-text guard, the
2000-byte minimum-size check, and propagated transport failures. -/
inductive GenError where
  | emptyInput
  | tooShort
  | transport
deriving DecidableEq, Repr

/-- The Streamlit session state used by the handler (`st.session_state.busy`). -/
structure SessionState where
  busy : Bool
deriving DecidableEq, Repr

/-- Observable trace of one run of the generate handler. -/
structure GenTrace where
  finalState : SessionState
  result : Except GenError Nat
  synthCalled : Bool
  busyAtSynthCall : Bool
deriving Repr

/-- The `try` block's body (`app.py` 219-245): invoke synthesis, read the
bytes, fail with the size-check error below 2000 bytes (`st.stop()` after
`st.error`), otherwise succeed with the audio length. -/
def generateTryBody (synth : SynthOutcome) : Except GenError Nat :=
  match synth with
  | .transportError => .error .transport
  | .ok len => if len < 2000 then .error .tooShort else .ok len

/-- Embedding of the generate handler (`app.py` 213-247): the
whitespace-stripped-empty guard runs before `busy` is touched and stops the
script; otherwise `busy` is set, the `try` body runs (the synthesis call is
made with `busy` as it then stands), and the `finally` clears `busy`
whatever the body's outcome was. -/
def generate_handler (text : String) (synth : SynthOutcome) (s : SessionState) : GenTrace :=
  if stripStr text = "" then
    { finalState := s, result := .error .emptyInput,
      synthCalled := false, busyAtSynthCall := s.busy }
  else
    { finalState := { s with busy := false },
      result := generateTryBody synth,
      synthCalled := true,
      busyAtSynthCall := ({ s with busy := true } : SessionState).busy }

/-- claim C7: on whitespace-only text the generate action aborts with the
empty-input error before the synthesis operation: no synthesis call is
made, and the busy flag is false before and after the aborted action. -/
theorem generate_empty_input (text : String) (synth : SynthOutcome) (s : SessionState)
    (htext : stripStr text = "") (hbusy : s.busy = false) :
    (generate_handler text synth s).result = .error .emptyInput ∧
    (generate_handler text synth s).synthCalled = false ∧
    s.busy = false ∧
    (generate_handler text synth s).finalState.busy = false := by
  rw [generate_handler, if_pos htext]
  exact ⟨rfl, rfl, hbusy, hbusy⟩

/-- Witness for C7: text of three spaces, idle session, a synthesis stub
that would have succeeded. -/
theorem generate_empty_input_witness :
    (generate_handler "   " (.ok 5000) ⟨false⟩).result = .error .emptyInput ∧
    (generate_handler "   " (.ok 5000) ⟨false⟩).synthCalled = false ∧
    (⟨false⟩ : SessionState).busy = false ∧
    (generate_handler "   " (.ok 5000) ⟨false⟩).finalState.busy = false :=
  generate_empty_input "   " (.ok 5000) ⟨false⟩ (by decide) rfl

/-- claim C8: after a completed synthesis call the handler fails with the
too-short error whenever the audio is below 2000 bytes, and returns the
byte count as a success whenever it is at least 2000 bytes. -/
theorem generate_size_check (text : String) (s : SessionState) (len : Nat)
    (htext : stripStr text ≠ "") :
    (len < 2000 →
      (generate_handler text (.ok len) s).result = .error .tooShort) ∧
    (2000 ≤ len →
      (generate_handler text (.ok len) s).result = .ok len) := by
  rw [generate_handler, if_neg htext]
  constructor
  · intro hl
    simp [generateTryBody, hl]
  · intro hl
    simp [generateTryBody]
    omega

/-- Witness for C8: a 100-byte result is rejected as too short. -/
theorem generate_size_check_witness :
    (generate_handler "Hello world" (.ok 100) ⟨false⟩).result = .error .tooShort :=
  (generate_size_check "Hello world" ⟨false⟩ 100 (by decide)).1 (by decide)

/-- claim C9: whenever the generate action passes the empty-text guard, the
busy flag is true at the moment the synthesis call is made and is false
again after the handler finishes, whatever the synthesis outcome (success,
too-short audio, or a transport error). -/
theorem generate_busy_guard (text : String) (synth : SynthOutcome) (s : SessionState)
    (htext : stripStr text ≠ "") :
    (generate_handler text synth s).synthCalled = true ∧
    (generate_handler text synth s).busyAtSynthCall = true ∧
    (generate_handler text synth s).finalState.busy = false := by
  rw [generate_handler, if_neg htext]
  exact ⟨rfl, rfl, rfl⟩

/-- Witness for C9: a transport failure still leaves the flag cleared. -/
theorem generate_busy_guard_witness :
    (generate_handler "Hello world" .transportError ⟨false⟩).synthCalled = true ∧
    (generate_handler "Hello world" .transportError ⟨false⟩).busyAtSynthCall = true ∧
    (generate_handler "Hello world" .transportError ⟨false⟩).finalState.busy = false :=
  generate_busy_guard "Hello world" .transportError ⟨false⟩ (by decide)
